import Mathlib

/-!
Verification of the CityU-Spy performance-analysis tool.

The development shallowly embeds the aggregation core and the rule engine of
the repository:

* `Profiler1` — `PerformanceAnalyzer._analyze_function_level` of
  `Py-Spy/profiler.py` (function table, caller map, root detection and the
  recursive `build_call_chains`).
* `Profiler2` — the sample-counting path of `src/Py_Spy/profiler.py`
  (`_calculate_call_chain_counts`, the `Counter` built by
  `ThreadSampler.save_to_flamegraph_file`, and the call-chain list built from
  it in `_analyze_function_level`).
* `Iface` — the external `analyze_file` entry point of `Py-Spy/profiler.py`.
* `RulesPySpy` — `RuleManager`, `CustomRuleBuilder`, `ASTVisitor` and
  `generate_optimization_suggestions` of `src/Py_Spy/recommender.py`.
* `RulesSprint3` — `load_custom_rules` and `generate_optimization_suggestions`
  of `src/recommender.py`.

Python `dict`s are embedded as insertion-ordered association lists, Python
`set`s as duplicate-free lists (iteration order of a Python set is
unspecified but deterministic within one run, which the specification
explicitly allows; the embedding fixes first-insertion order).  Python floats
are embedded as rationals.
-/

namespace CityUSpy

/-! ## Association lists (Python dicts) and duplicate-free lists (Python sets) -/

/-- Lookup in an association list (Python `d[k]` / `k in d`). -/
def lookupA {κ α : Type} [DecidableEq κ] : List (κ × α) → κ → Option α
  | [], _ => none
  | (k, v) :: rest, k' => if k = k' then some v else lookupA rest k'

/-- Python `d[k] = v`: replace the value in place if the key exists,
otherwise append the binding (dict insertion order). -/
def insertA {κ α : Type} [DecidableEq κ] : List (κ × α) → κ → α → List (κ × α)
  | [], k, v => [(k, v)]
  | (k', v') :: rest, k, v =>
      if k' = k then (k, v) :: rest else (k', v') :: insertA rest k v

/-- Python `s.add(x)` on a set embedded as a duplicate-free list. -/
def setAdd (s : List String) (x : String) : List String :=
  if x ∈ s then s else s ++ [x]

theorem lookupA_insertA_self {κ α : Type} [DecidableEq κ]
    (m : List (κ × α)) (k : κ) (v : α) : lookupA (insertA m k v) k = some v := by
  induction m with
  | nil => simp [insertA, lookupA]
  | cons kv rest ih =>
    obtain ⟨k', v'⟩ := kv
    by_cases h : k' = k
    · simp [insertA, h, lookupA]
    · simp [insertA, h, lookupA, ih]

theorem lookupA_insertA_ne {κ α : Type} [DecidableEq κ]
    (m : List (κ × α)) (k k' : κ) (v : α) (h : k ≠ k') :
    lookupA (insertA m k v) k' = lookupA m k' := by
  induction m with
  | nil => simp [insertA, lookupA, h]
  | cons kv rest ih =>
    obtain ⟨ka, va⟩ := kv
    by_cases hk : ka = k
    · subst hk
      simp [insertA, lookupA, h]
    · simp [insertA, hk, lookupA, ih]

theorem mem_setAdd {s : List String} {x y : String} :
    y ∈ setAdd s x ↔ y ∈ s ∨ y = x := by
  unfold setAdd
  by_cases h : x ∈ s
  · simp only [if_pos h]
    constructor
    · exact Or.inl
    · rintro (hy | rfl) <;> [exact hy; exact h]
  · simp [if_neg h]

/-! ## Profiler1: `Py-Spy/profiler.py`, `_analyze_function_level`

The raw `pstats` table is a mapping from a code location `(file, line, name)`
to `(cc, nc, tt, ct, callers)`; the code reads only the line number, the
function name, `nc` (call count), `ct` (cumulative time) and the names of the
caller locations, so a raw entry is embedded as exactly those fields. -/

namespace Profiler1

open CityUSpy

/-- One entry of `stats.stats` as consumed by `_analyze_function_level`. -/
structure StatsEntry where
  file : String
  line : Nat
  name : String
  nc : Nat
  ct : Rat
  /-- The function names of the entry's raw caller locations
  (`_, _, caller_name = caller`); only the name component is used. -/
  callers : List String
  deriving DecidableEq, Repr

/-- The prefix exclusion list of `should_include_function`. -/
def exclusions : List String :=
  ["<built-in", "<method", "<module>", "<listcomp>", "__init__", "decode", "<"]

/-- `should_include_function`: keep a name only if it starts with none of the
excluded prefixes (`func_name.startswith(exc)` is prefix-of on the character
sequence). -/
def shouldIncludeFunction (funcName : String) : Bool :=
  !(exclusions.any (fun exc => exc.data.isPrefixOf funcName.data))

/-- One element of the `results` list (a FunctionRecord). -/
structure FunctionRecord where
  function : String
  calls : Nat
  total_time : Rat
  average_time : Rat
  line_number : Nat
  deriving DecidableEq, Repr

/-- One element of the `call_chains` list. -/
structure CallChain where
  chain : List String
  count : Nat
  self_time : Rat
  children : List Nat
  deriving DecidableEq, Repr

/-- The accumulator of the first pass over `stats.stats`. -/
structure AggState where
  functionIndices : List (String × Nat)
  callCountMap : List (String × Nat)
  averageTimeMap : List (String × Rat)
  directCalls : List (String × List String)
  results : List FunctionRecord
  deriving Repr

def initState : AggState := ⟨[], [], [], [], []⟩

/-- `direct_calls.setdefault(caller, set()).add(function_name)` — the body of
the caller loop once the caller has passed the filter. -/
def addDirectCall (dc : List (String × List String)) (caller callee : String) :
    List (String × List String) :=
  match lookupA dc caller with
  | none => insertA dc caller (setAdd [] callee)
  | some s => insertA dc caller (setAdd s callee)

/-- The body of the first pass for one raw entry: record the index, call
count and average time for the function name, extend the caller map with the
filtered callers, and append the result record. -/
def processEntry (st : AggState) (e : StatsEntry) : AggState :=
  if shouldIncludeFunction e.name then
    { functionIndices := insertA st.functionIndices e.name st.results.length
      callCountMap := insertA st.callCountMap e.name e.nc
      averageTimeMap :=
        insertA st.averageTimeMap e.name (if e.nc > 0 then e.ct / e.nc else 0)
      directCalls := e.callers.foldl
        (fun dc caller =>
          if shouldIncludeFunction caller then addDirectCall dc caller e.name else dc)
        st.directCalls
      results := st.results ++
        [{ function := e.name
           calls := e.nc
           total_time := e.ct
           average_time := if e.nc > 0 then e.ct / e.nc else 0
           line_number := e.line }] }
  else st

/-- The first pass over `stats.stats.items()`. -/
def firstPass (stats : List StatsEntry) : AggState :=
  stats.foldl processEntry initState

/-- `direct_calls.get(func_name, set())`. -/
def calleesOf (dc : List (String × List String)) (f : String) : List String :=
  (lookupA dc f).getD []

/-- All function names occurring in the caller map (keys and callees); used
only as the termination measure of the chain traversal. -/
def namePool (dc : List (String × List String)) : List String :=
  dc.foldr (fun kv acc => kv.1 :: kv.2 ++ acc) []

/-- `children_indices` of `build_call_chains`: the function-table indices of
the callees that are present in `function_indices` and pass the filter. -/
def childIndices (st : AggState) (f : String) : List Nat :=
  (calleesOf st.directCalls f).filterMap (fun c =>
    if (lookupA st.functionIndices c).isSome && shouldIncludeFunction c then
      lookupA st.functionIndices c
    else none)

/-- The average time recorded for a name
(`average_time_map[name]`; every name this is applied to is a key of the
map, so the `getD 0` default is never exercised). -/
def avgOf (st : AggState) (f : String) : Rat :=
  (lookupA st.averageTimeMap f).getD 0

/-- The recorded call count of a name (`call_count_map[name]`; as for
`avgOf`, the default is never exercised). -/
def countOf (st : AggState) (f : String) : Nat :=
  (lookupA st.callCountMap f).getD 0

/-- `self_time` of `build_call_chains`: start from the node's average time
and subtract the average time of every callee that is in the average-time
map and passes the filter. -/
def selfTimeOf (st : AggState) (f : String) : Rat :=
  (calleesOf st.directCalls f).foldl
    (fun t c =>
      if (lookupA st.averageTimeMap c).isSome && shouldIncludeFunction c then
        t - (lookupA st.averageTimeMap c).getD 0
      else t)
    (avgOf st f)

theorem mem_namePool_key {dc : List (String × List String)} {f : String}
    {l : List String} (h : lookupA dc f = some l) : f ∈ namePool dc := by
  induction dc with
  | nil => simp [lookupA] at h
  | cons kv rest ih =>
    simp only [lookupA] at h
    simp only [namePool, List.foldr, List.mem_cons, List.mem_append]
    by_cases hk : kv.1 = f
    · exact Or.inl (Or.inl hk.symm)
    · simp only [if_neg hk] at h
      have := ih h
      simp only [namePool] at this
      tauto

theorem mem_calleesOf {dc : List (String × List String)} {f c : String}
    (h : c ∈ calleesOf dc f) : ∃ l, lookupA dc f = some l := by
  rcases hl : lookupA dc f with _ | l
  · rw [calleesOf, hl] at h; simp at h
  · exact ⟨l, rfl⟩

/-- `build_call_chains`: stop on a name already in the visited set, otherwise
emit the record for the extended chain and recurse into the callees that are
unvisited and pass the filter.  (The Python function mutates `current_chain`
and `visited` but always passes copies downwards and undoes its own mutation
before returning, so it is this pure function.)  Lean accepts the recursion
because the visited set grows inside the finite pool of names occurring in
the caller map — this is the cycle-safety argument of the specification. -/
def buildCallChains (st : AggState) (f : String) (chain visited : List String) :
    List CallChain :=
  if hf : f ∈ visited then []
  else
    { chain := chain ++ [f]
      count := countOf st f
      self_time := selfTimeOf st f
      children := childIndices st f } ::
    ((calleesOf st.directCalls f).filter
        (fun c => !((f :: visited).contains c) && shouldIncludeFunction c)).attach.flatMap
      (fun c => buildCallChains st c.1 (chain ++ [f]) (f :: visited))
termination_by ((namePool st.directCalls).toFinset \ visited.toFinset).card
decreasing_by
  have hc : (c : String) ∈ (calleesOf st.directCalls f).filter
      (fun c => !((f :: visited).contains c) && shouldIncludeFunction c) := c.2
  have hmem : (c : String) ∈ calleesOf st.directCalls f := (List.mem_filter.mp hc).1
  obtain ⟨l, hl⟩ := mem_calleesOf hmem
  have hfA : f ∈ namePool st.directCalls := mem_namePool_key hl
  have hstep : (namePool st.directCalls).toFinset \ (f :: visited).toFinset
      = ((namePool st.directCalls).toFinset \ visited.toFinset).erase f := by
    ext x
    simp only [Finset.mem_sdiff, Finset.mem_erase, List.toFinset_cons,
      Finset.mem_insert, List.mem_toFinset]
    constructor
    · rintro ⟨hx, hnx⟩
      push_neg at hnx
      exact ⟨hnx.1, hx, hnx.2⟩
    · rintro ⟨hne, hx, hnx⟩
      exact ⟨hx, by push_neg; exact ⟨hne, hnx⟩⟩
  rw [hstep]
  apply Finset.card_erase_lt_of_mem
  simp only [Finset.mem_sdiff, List.mem_toFinset]
  exact ⟨hfA, hf⟩

/-- The direct callees of `f` that are subtracted in `self_time` (present in
the average-time map and passing the filter). -/
def filteredCallees (st : AggState) (f : String) : List String :=
  (calleesOf st.directCalls f).filter
    (fun c => (lookupA st.averageTimeMap c).isSome && shouldIncludeFunction c)

/-- Whether some caller's callee set contains `f` (the `is_called` scan). -/
def isCalled (st : AggState) (f : String) : Bool :=
  st.directCalls.any (fun kv => kv.2.contains f)

/-- Root detection: functions never called by an included function, plus
functions having at least one excluded raw caller.  `root_functions` is a
Python set; the embedding fixes first-insertion order. -/
def rootFunctions (stats : List StatsEntry) (st : AggState) : List String :=
  let r1 := ((st.functionIndices.map Prod.fst).filter
    (fun f => shouldIncludeFunction f && !(isCalled st f))).foldl setAdd []
  stats.foldl
    (fun acc e =>
      if shouldIncludeFunction e.name &&
          e.callers.any (fun c => !(shouldIncludeFunction c)) then
        setAdd acc e.name
      else acc)
    r1

/-- The whole aggregation of `_analyze_function_level`: first pass, root
detection, then `build_call_chains` for every root.  Returns the `results`
and `call_chains` components of the output dictionary. -/
def analyzeFunctionLevel (stats : List StatsEntry) :
    List FunctionRecord × List CallChain :=
  let st := firstPass stats
  (st.results,
    ((rootFunctions stats st).filter (fun f => shouldIncludeFunction f)).foldl
      (fun acc f => acc ++ buildCallChains st f [] []) [])

/-- A fuel-indexed copy of `buildCallChains`, used to evaluate the traversal
on concrete inputs; `buildCallChainsFuel_eq` shows any fuel above the size of
the name pool gives exactly `buildCallChains`. -/
def buildCallChainsFuel (st : AggState) :
    Nat → String → List String → List String → List CallChain
  | 0, _, _, _ => []
  | n + 1, f, chain, visited =>
    if f ∈ visited then []
    else
      { chain := chain ++ [f]
        count := countOf st f
        self_time := selfTimeOf st f
        children := childIndices st f } ::
      ((calleesOf st.directCalls f).filter
          (fun c => !((f :: visited).contains c) && shouldIncludeFunction c)).flatMap
        (fun c => buildCallChainsFuel st n c (chain ++ [f]) (f :: visited))

theorem attach_flatMap_eq {α β : Type} (l : List α) (g : α → List β) :
    l.attach.flatMap (fun x => g x.1) = l.flatMap g := by
  induction l with
  | nil => simp
  | cons a rest ih => simp [List.flatMap_cons, List.flatMap_map, ih]

theorem buildCallChainsFuel_eq (st : AggState) :
    ∀ (n : Nat) (f : String) (chain visited : List String),
      ((namePool st.directCalls).toFinset \ visited.toFinset).card < n →
      buildCallChainsFuel st n f chain visited = buildCallChains st f chain visited := by
  intro n
  induction n with
  | zero => intro f chain visited h; omega
  | succ n ih =>
    intro f chain visited h
    rw [buildCallChains, buildCallChainsFuel]
    by_cases hf : f ∈ visited
    · simp [hf]
    · simp only [if_neg hf, dif_neg hf, List.cons.injEq, true_and]
      rw [attach_flatMap_eq
        ((calleesOf st.directCalls f).filter
          (fun c => !((f :: visited).contains c) && shouldIncludeFunction c))
        (fun c => buildCallChains st c (chain ++ [f]) (f :: visited))]
      rcases hl : lookupA st.directCalls f with _ | l
      · simp [calleesOf, hl]
      · have hfA : f ∈ namePool st.directCalls := mem_namePool_key hl
        have hstep : (namePool st.directCalls).toFinset \ (f :: visited).toFinset
            = ((namePool st.directCalls).toFinset \ visited.toFinset).erase f := by
          ext x
          simp only [Finset.mem_sdiff, Finset.mem_erase, List.toFinset_cons,
            Finset.mem_insert, List.mem_toFinset]
          constructor
          · rintro ⟨hx, hnx⟩
            push_neg at hnx
            exact ⟨hnx.1, hx, hnx.2⟩
          · rintro ⟨hne, hx, hnx⟩
            exact ⟨hx, by push_neg; exact ⟨hne, hnx⟩⟩
        have hmemf : f ∈ (namePool st.directCalls).toFinset \ visited.toFinset := by
          simp only [Finset.mem_sdiff, List.mem_toFinset]
          exact ⟨hfA, hf⟩
        have hlt : ((namePool st.directCalls).toFinset \ (f :: visited).toFinset).card < n := by
          rw [hstep, Finset.card_erase_of_mem hmemf]
          have hpos : 0 < ((namePool st.directCalls).toFinset \ visited.toFinset).card :=
            Finset.card_pos.mpr ⟨f, hmemf⟩
          omega
        have hcong : ∀ c, buildCallChainsFuel st n c (chain ++ [f]) (f :: visited)
            = buildCallChains st c (chain ++ [f]) (f :: visited) := fun c =>
          ih c (chain ++ [f]) (f :: visited) hlt
        exact congrArg _ (funext hcong)

/-- Every name on an emitted chain passes the filter, provided the names on
the incoming prefix and the current function do: the recursion only ever
descends into callees that pass `should_include_function`. -/
theorem buildCallChains_chain_filtered (st : AggState) (f : String)
    (chain visited : List String)
    (h1 : ∀ x ∈ chain, shouldIncludeFunction x = true)
    (h2 : shouldIncludeFunction f = true) :
    ∀ cc ∈ buildCallChains st f chain visited, ∀ x ∈ cc.chain,
      shouldIncludeFunction x = true := by
  induction f, chain, visited using buildCallChains.induct st with
  | case1 f chain visited hf => simp [buildCallChains, hf]
  | case2 f chain visited hf ih =>
    intro cc hcc
    rw [buildCallChains, dif_neg hf] at hcc
    rcases List.mem_cons.mp hcc with hceq | hcmem
    · subst hceq
      intro x hx
      rcases List.mem_append.mp hx with h' | h'
      · exact h1 x h'
      · simp only [List.mem_singleton] at h'
        subst h'
        exact h2
    · obtain ⟨⟨cal, hcal⟩, _, hrec⟩ := List.mem_flatMap.mp hcmem
      have hfil := (List.mem_filter.mp hcal).2
      have hcalinc : shouldIncludeFunction cal = true := by
        simp only [Bool.and_eq_true] at hfil
        exact hfil.2
      refine ih ⟨cal, hcal⟩ ?_ hcalinc cc hrec
      intro x hx
      rcases List.mem_append.mp hx with h' | h'
      · exact h1 x h'
      · simp only [List.mem_singleton] at h'
        subst h'
        exact h2

/-- No emitted chain repeats a name: the visited set always contains the
chain prefix and a visited name is never re-expanded. -/
theorem buildCallChains_chain_nodup (st : AggState) (f : String)
    (chain visited : List String)
    (h1 : chain.Nodup) (h2 : ∀ x ∈ chain, x ∈ visited) :
    ∀ cc ∈ buildCallChains st f chain visited, cc.chain.Nodup := by
  induction f, chain, visited using buildCallChains.induct st with
  | case1 f chain visited hf => simp [buildCallChains, hf]
  | case2 f chain visited hf ih =>
    intro cc hcc
    rw [buildCallChains, dif_neg hf] at hcc
    have hchain' : (chain ++ [f]).Nodup := by
      refine List.nodup_append.mpr ⟨h1, List.nodup_singleton f, ?_⟩
      intro x hx hx'
      simp only [List.mem_singleton] at hx'
      subst hx'
      exact hf (h2 x hx)
    rcases List.mem_cons.mp hcc with hceq | hcmem
    · subst hceq
      exact hchain'
    · obtain ⟨⟨cal, hcal⟩, _, hrec⟩ := List.mem_flatMap.mp hcmem
      refine ih ⟨cal, hcal⟩ hchain' ?_ cc hrec
      intro x hx
      rcases List.mem_append.mp hx with h' | h'
      · exact List.mem_cons_of_mem _ (h2 x h')
      · simp only [List.mem_singleton] at h'
        subst h'
        exact List.mem_cons_self _ _

/-- Every emitted record is the record of the last name on its chain: its
`count`, `self_time` and `children` are computed from that name. -/
theorem buildCallChains_record_spec (st : AggState) (f : String)
    (chain visited : List String) :
    ∀ cc ∈ buildCallChains st f chain visited, ∃ g,
      cc.chain.getLast? = some g ∧
      cc.count = countOf st g ∧
      cc.self_time = selfTimeOf st g ∧
      cc.children = childIndices st g := by
  induction f, chain, visited using buildCallChains.induct st with
  | case1 f chain visited hf => simp [buildCallChains, hf]
  | case2 f chain visited hf ih =>
    intro cc hcc
    rw [buildCallChains, dif_neg hf] at hcc
    rcases List.mem_cons.mp hcc with hceq | hcmem
    · subst hceq
      exact ⟨f, by simp [List.getLast?_concat], rfl, rfl, rfl⟩
    · obtain ⟨⟨cal, hcal⟩, _, hrec⟩ := List.mem_flatMap.mp hcmem
      exact ih ⟨cal, hcal⟩ cc hrec

theorem foldl_sub_filter {α : Type} (p : α → Bool) (g : α → Rat) :
    ∀ (l : List α) (a : Rat),
      l.foldl (fun t c => if p c then t - g c else t) a
        = a - ((l.filter p).map g).sum := by
  intro l
  induction l with
  | nil => simp
  | cons x rest ih =>
    intro a
    by_cases hx : p x
    · rw [List.foldl_cons, if_pos hx, ih, List.filter_cons_of_pos hx,
        List.map_cons, List.sum_cons, sub_sub]
    · rw [List.foldl_cons, if_neg hx, ih, List.filter_cons_of_neg (by simp [hx])]

/-- `self_time` equals the node's average time minus the sum of the average
times of its filtered direct callees. -/
theorem selfTimeOf_eq (st : AggState) (f : String) :
    selfTimeOf st f = avgOf st f - ((filteredCallees st f).map (avgOf st)).sum := by
  unfold selfTimeOf avgOf filteredCallees
  exact foldl_sub_filter _ _ _ _

theorem mem_insertA {κ α : Type} [DecidableEq κ] {m : List (κ × α)} {k : κ} {v : α}
    {kv : κ × α} (h : kv ∈ insertA m k v) : kv = (k, v) ∨ kv ∈ m := by
  induction m with
  | nil => simpa [insertA] using h
  | cons kv2 rest ih =>
    obtain ⟨ka, va⟩ := kv2
    by_cases hk : ka = k
    · subst hk
      rw [insertA, if_pos rfl] at h
      rcases List.mem_cons.mp h with h1 | h1
      · exact Or.inl h1
      · exact Or.inr (List.mem_cons_of_mem _ h1)
    · rw [insertA, if_neg hk] at h
      rcases List.mem_cons.mp h with h1 | h1
      · exact Or.inr (by rw [h1]; exact List.mem_cons_self _ _)
      · rcases ih h1 with h2 | h2
        · exact Or.inl h2
        · exact Or.inr (List.mem_cons_of_mem _ h2)

/-- Invariants of the first pass used across the claims: every result record
satisfies the average-time equation and passes the filter, every caller key
of the caller map passes the filter, and the function-index table points at
a result record of the same name whose fields agree with the side maps. -/
def StateInv (st : AggState) : Prop :=
  (∀ r ∈ st.results,
      (r.average_time = if r.calls > 0 then r.total_time / (r.calls : Rat) else 0) ∧
      shouldIncludeFunction r.function = true) ∧
  (∀ kv ∈ st.directCalls, shouldIncludeFunction kv.1 = true) ∧
  (∀ n i, lookupA st.functionIndices n = some i →
    ∃ r, st.results[i]? = some r ∧ r.function = n ∧
      r.calls = (lookupA st.callCountMap n).getD 0 ∧
      r.average_time = (lookupA st.averageTimeMap n).getD 0)

theorem addDirectCall_keys {dc : List (String × List String)} {caller callee : String}
    (hdc : ∀ kv ∈ dc, shouldIncludeFunction kv.1 = true)
    (hc : shouldIncludeFunction caller = true) :
    ∀ kv ∈ addDirectCall dc caller callee, shouldIncludeFunction kv.1 = true := by
  intro kv hkv
  unfold addDirectCall at hkv
  rcases hl : lookupA dc caller with _ | s
  · rw [hl] at hkv
    rcases mem_insertA hkv with h1 | h1
    · rw [h1]; exact hc
    · exact hdc kv h1
  · rw [hl] at hkv
    rcases mem_insertA hkv with h1 | h1
    · rw [h1]; exact hc
    · exact hdc kv h1

theorem callerFold_keys (callee : String) :
    ∀ (callers : List String) (dc : List (String × List String)),
      (∀ kv ∈ dc, shouldIncludeFunction kv.1 = true) →
      ∀ kv ∈ callers.foldl
        (fun dc caller =>
          if shouldIncludeFunction caller then addDirectCall dc caller callee else dc)
        dc, shouldIncludeFunction kv.1 = true := by
  intro callers
  induction callers with
  | nil => intro dc hdc0 kv hkv; exact hdc0 kv hkv
  | cons c rest ih =>
    intro dc hdc0 kv hkv
    rw [List.foldl_cons] at hkv
    by_cases hc : shouldIncludeFunction c
    · rw [if_pos hc] at hkv
      exact ih _ (addDirectCall_keys hdc0 hc) kv hkv
    · rw [if_neg hc] at hkv
      exact ih _ hdc0 kv hkv

theorem processEntry_inv {st : AggState} (hst : StateInv st) (e : StatsEntry) :
    StateInv (processEntry st e) := by
  obtain ⟨hres, hdc, htab⟩ := hst
  unfold processEntry
  by_cases he : shouldIncludeFunction e.name
  · rw [if_pos he]
    refine ⟨?_, ?_, ?_⟩
    · intro r hr
      rcases List.mem_append.mp hr with h1 | h1
      · exact hres r h1
      · simp only [List.mem_singleton] at h1
        subst h1
        exact ⟨rfl, he⟩
    · intro kv hkv
      exact callerFold_keys e.name e.callers st.directCalls hdc kv hkv
    · intro n i hn
      by_cases hne : e.name = n
      · subst hne
        rw [lookupA_insertA_self] at hn
        injection hn with hn
        subst hn
        refine ⟨_, List.getElem?_concat_length st.results _, rfl, ?_, ?_⟩
        · rw [lookupA_insertA_self]; rfl
        · rw [lookupA_insertA_self]; rfl
      · rw [lookupA_insertA_ne _ _ _ _ hne] at hn
        obtain ⟨r, hr, hrn, hrc, hra⟩ := htab n i hn
        have hi : i < st.results.length := (List.getElem?_eq_some.mp hr).1
        refine ⟨r, ?_, hrn, ?_, ?_⟩
        · rw [List.getElem?_append_left hi]
          exact hr
        · rw [lookupA_insertA_ne _ _ _ _ hne]
          exact hrc
        · rw [lookupA_insertA_ne _ _ _ _ hne]
          exact hra
  · rw [if_neg he]
    exact ⟨hres, hdc, htab⟩


theorem firstPass_inv (stats : List StatsEntry) : StateInv (firstPass stats) := by
  have hgen : ∀ (l : List StatsEntry) (st : AggState), StateInv st →
      StateInv (l.foldl processEntry st) := by
    intro l
    induction l with
    | nil =>
      intro st h
      rw [List.foldl_nil]
      exact h
    | cons e rest ih =>
      intro st h
      rw [List.foldl_cons]
      exact ih _ (processEntry_inv h e)
  have hinit : StateInv initState := by
    refine ⟨?_, ?_, ?_⟩
    · intro r hr
      simp [initState] at hr
    · intro kv hkv
      simp [initState] at hkv
    · intro n i hn
      simp [initState, lookupA] at hn
  rw [firstPass]
  exact hgen stats initState hinit

theorem mem_childIndices {st : AggState} {f : String} {i : Nat}
    (h : i ∈ childIndices st f) :
    ∃ c, c ∈ calleesOf st.directCalls f ∧ shouldIncludeFunction c = true ∧
      lookupA st.functionIndices c = some i := by
  unfold childIndices at h
  obtain ⟨c, hc, hval⟩ := List.mem_filterMap.mp h
  by_cases hcond : ((lookupA st.functionIndices c).isSome && shouldIncludeFunction c) = true
  · rw [if_pos hcond] at hval
    have hinc : shouldIncludeFunction c = true := by
      simp only [Bool.and_eq_true] at hcond
      exact hcond.2
    exact ⟨c, hc, hinc, hval⟩
  · rw [if_neg hcond] at hval
    cases hval

theorem mem_foldl_append {α β : Type} (g : α → List β) :
    ∀ (l : List α) (acc : List β) (x : β),
      x ∈ l.foldl (fun acc a => acc ++ g a) acc ↔ x ∈ acc ∨ ∃ a ∈ l, x ∈ g a := by
  intro l
  induction l with
  | nil => simp
  | cons a rest ih =>
    intro acc x
    rw [List.foldl_cons, ih]
    simp only [List.mem_append, List.mem_cons]
    constructor
    · rintro ((h | h) | ⟨b, hb, hx⟩)
      · exact Or.inl h
      · exact Or.inr ⟨a, Or.inl rfl, h⟩
      · exact Or.inr ⟨b, Or.inr hb, hx⟩
    · rintro (h | ⟨b, (rfl | hb), hx⟩)
      · exact Or.inl (Or.inl h)
      · exact Or.inl (Or.inr hx)
      · exact Or.inr ⟨b, hb, hx⟩

theorem foldl_append_congr {α β : Type} (l : List α) (g h : α → List β)
    (hgh : ∀ x, g x = h x) :
    ∀ acc, l.foldl (fun acc x => acc ++ g x) acc = l.foldl (fun acc x => acc ++ h x) acc := by
  induction l with
  | nil => intro acc; rfl
  | cons x rest ih =>
    intro acc
    rw [List.foldl_cons, List.foldl_cons, hgh, ih]

/-- Enough fuel for the whole pool of names: the fuel-indexed traversal from
an empty visited set agrees with `buildCallChains`. -/
theorem buildCallChains_fuel_top (st : AggState) (f : String) :
    buildCallChains st f [] [] =
      buildCallChainsFuel st ((namePool st.directCalls).length + 1) f [] [] := by
  refine (buildCallChainsFuel_eq st _ f [] [] ?_).symm
  simp only [List.toFinset_nil, Finset.sdiff_empty]
  have := (namePool st.directCalls).toFinset_card_le
  omega

theorem analyzeFunctionLevel_results (stats : List StatsEntry) :
    (analyzeFunctionLevel stats).1 = (firstPass stats).results := rfl

/-- The chain list of the analysis, re-expressed through the fuel-indexed
traversal; usable for evaluation on concrete inputs. -/
theorem analyzeFunctionLevel_chains_eval (stats : List StatsEntry) :
    (analyzeFunctionLevel stats).2 =
      ((rootFunctions stats (firstPass stats)).filter
          (fun f => shouldIncludeFunction f)).foldl
        (fun acc f => acc ++ buildCallChainsFuel (firstPass stats)
          ((namePool (firstPass stats).directCalls).length + 1) f [] []) [] := by
  unfold analyzeFunctionLevel
  exact foldl_append_congr _ _ _ (fun f => buildCallChains_fuel_top (firstPass stats) f) []

/-- Membership in the produced chain list comes from some filtered root. -/
theorem mem_analyze_chains {stats : List StatsEntry} {cc : CallChain}
    (h : cc ∈ (analyzeFunctionLevel stats).2) :
    ∃ f, shouldIncludeFunction f = true ∧
      cc ∈ buildCallChains (firstPass stats) f [] [] := by
  unfold analyzeFunctionLevel at h
  rw [mem_foldl_append] at h
  rcases h with h | ⟨f, hf, hcc⟩
  · cases h
  · have hfi : shouldIncludeFunction f = true := by
      have := List.mem_filter.mp hf
      exact this.2
    exact ⟨f, hfi, hcc⟩

/-- A raw stats table with a two-node call cycle `A → B → A`, where `A` is
additionally called from the excluded top-level entry (so `A` is a root).
`A` has cumulative time 2, `B` has cumulative time 1, each with one call. -/
def cycStats : List StatsEntry :=
  [{ file := "f.py", line := 1, name := "A", nc := 1, ct := 2,
     callers := ["B", "<module>"] },
   { file := "f.py", line := 5, name := "B", nc := 1, ct := 1,
     callers := ["A"] }]

theorem cycStats_chains :
    (analyzeFunctionLevel cycStats).2 =
      [{ chain := ["A"], count := 1, self_time := 1, children := [1] },
       { chain := ["A", "B"], count := 1, self_time := -1, children := [0] }] := by
  rw [analyzeFunctionLevel_chains_eval]
  norm_num +decide [firstPass, processEntry, initState, insertA, lookupA,
    addDirectCall, setAdd, shouldIncludeFunction, exclusions, rootFunctions,
    isCalled, namePool, buildCallChainsFuel, calleesOf, childIndices, countOf,
    selfTimeOf, avgOf, cycStats]

theorem cycStats_results :
    (analyzeFunctionLevel cycStats).1 =
      [{ function := "A", calls := 1, total_time := 2, average_time := 2,
         line_number := 1 },
       { function := "B", calls := 1, total_time := 1, average_time := 1,
         line_number := 5 }] := by
  rw [analyzeFunctionLevel_results]
  norm_num +decide [firstPass, processEntry, initState, insertA, lookupA,
    addDirectCall, setAdd, shouldIncludeFunction, exclusions, cycStats]

/-- A raw stats table where the callee `beta` precedes the root `alpha` in
the raw table, so the function-table index of `beta` is 0 while the chain
extending `["alpha"]` sits at position 1 of the chain list. -/
def c2Stats : List StatsEntry :=
  [{ file := "f.py", line := 10, name := "beta", nc := 1, ct := 1,
     callers := ["alpha"] },
   { file := "f.py", line := 4, name := "alpha", nc := 1, ct := 2,
     callers := ["<module>"] }]

theorem c2Stats_chains :
    (analyzeFunctionLevel c2Stats).2 =
      [{ chain := ["alpha"], count := 1, self_time := 1, children := [0] },
       { chain := ["alpha", "beta"], count := 1, self_time := 1, children := [] }] := by
  rw [analyzeFunctionLevel_chains_eval]
  norm_num +decide [firstPass, processEntry, initState, insertA, lookupA,
    addDirectCall, setAdd, shouldIncludeFunction, exclusions, rootFunctions,
    isCalled, namePool, buildCallChainsFuel, calleesOf, childIndices, countOf,
    selfTimeOf, avgOf, c2Stats]

end Profiler1

/-! ## Profiler2: `src/Py_Spy/profiler.py`, sample counting

The fine-grained sampler records one entry per call event, each carrying the
full ordered call stack (`call_info['stack']`).  `save_to_flamegraph_file`
counts the stacks with `Counter` after joining the frames with `;`;
`_analyze_function_level` then emits one chain record per counted stack.  A
formatted frame (a function name, or `name(file:line)`) is a nonempty string
never containing the separator, so the joined string and the frame list
determine each other and the joined string is nonempty exactly when the
frame list is; the embedding keys the counter by the frame list (the stack
tuple) and renders the `len(call_chain) > 0` guard on it. -/

namespace Profiler2

/-- One step of a Python `Counter`/manual counting dict: first occurrence
inserts 1, later occurrences increment in place. -/
def bumpCount (counts : List (List String × Nat)) (chain : List String) :
    List (List String × Nat) :=
  match lookupA counts chain with
  | none => insertA counts chain 1
  | some v => insertA counts chain (v + 1)

/-- `_calculate_call_chain_counts`: the exact-match frequency table keyed by
the full ordered stack tuple (`tuple(entry['stack'])`); a missing key starts
at 0 and each occurrence adds 1. -/
def calcCallChainCounts (callStacks : List (List String)) :
    List (List String × Nat) :=
  callStacks.foldl bumpCount []

/-- The `Counter` built in `save_to_flamegraph_file` over the joined stacks
of `call_stack_data` (fine-grained mode). -/
def samplesCounter (samples : List (List String)) : List (List String × Nat) :=
  samples.foldl bumpCount []

/-- One element of the `call_chains` list of `_analyze_function_level`. -/
structure SampleChain where
  chain : List String
  count : Nat
  percentage : Rat
  deriving DecidableEq, Repr

/-- The chain list built from the sample counter: one record per counted
nonempty stack, with `count` the stack's frequency and `percentage` its
share of all samples. -/
def buildSampleChains (samples : List (List String)) : List SampleChain :=
  let counter := samplesCounter samples
  let total : Nat := (counter.map Prod.snd).sum
  counter.foldl
    (fun acc kc =>
      if kc.1.length > 0 then
        acc ++ [{ chain := kc.1, count := kc.2,
                  percentage := ((kc.2 : Rat) / (total : Rat)) * 100 }]
      else acc)
    []

theorem lookupA_bumpCount_self (counts : List (List String × Nat))
    (k : List String) :
    lookupA (bumpCount counts k) k = some ((lookupA counts k).getD 0 + 1) := by
  unfold bumpCount
  rcases h : lookupA counts k with _ | v
  · rw [lookupA_insertA_self]
    simp
  · rw [lookupA_insertA_self]
    simp

theorem lookupA_bumpCount_ne (counts : List (List String × Nat))
    (k k' : List String) (h : k ≠ k') :
    lookupA (bumpCount counts k) k' = lookupA counts k' := by
  unfold bumpCount
  rcases lookupA counts k with _ | v
  · exact lookupA_insertA_ne _ _ _ _ h
  · exact lookupA_insertA_ne _ _ _ _ h

/-- The counting fold computes exact-match frequencies: the table entry of a
stack (0 if absent) is the number of raw stacks exactly equal to it. -/
theorem lookupA_countFold (l : List (List String)) :
    ∀ (acc : List (List String × Nat)) (k : List String),
      (lookupA (l.foldl bumpCount acc) k).getD 0 =
        (lookupA acc k).getD 0 + l.count k := by
  induction l with
  | nil => intro acc k; simp
  | cons s rest ih =>
    intro acc k
    rw [List.foldl_cons, ih]
    by_cases hs : s = k
    · subst hs
      rw [lookupA_bumpCount_self]
      simp [List.count_cons]
      omega
    · rw [lookupA_bumpCount_ne _ _ _ hs]
      have : k ≠ s := fun h => hs h.symm
      simp [List.count_cons, this]

theorem calcCallChainCounts_lookup (callStacks : List (List String))
    (k : List String) :
    (lookupA (calcCallChainCounts callStacks) k).getD 0 = callStacks.count k := by
  unfold calcCallChainCounts
  rw [lookupA_countFold]
  simp [lookupA]

theorem mem_keys_insertA {κ α : Type} [DecidableEq κ]
    {m : List (κ × α)} {k x : κ} {v : α} :
    x ∈ (insertA m k v).map Prod.fst ↔ x ∈ m.map Prod.fst ∨ x = k := by
  induction m with
  | nil => simp [insertA]
  | cons kv rest ih =>
    obtain ⟨ka, va⟩ := kv
    by_cases hk : ka = k
    · subst hk
      simp [insertA]
      tauto
    · simp [insertA, hk, ih]
      tauto

theorem insertA_keys_nodup {κ α : Type} [DecidableEq κ]
    {m : List (κ × α)} {k : κ} {v : α} (h : (m.map Prod.fst).Nodup) :
    ((insertA m k v).map Prod.fst).Nodup := by
  induction m with
  | nil => simp [insertA]
  | cons kv rest ih =>
    obtain ⟨ka, va⟩ := kv
    simp only [List.map_cons, List.nodup_cons] at h
    by_cases hk : ka = k
    · subst hk
      have he : insertA ((ka, va) :: rest) ka v = (ka, v) :: rest := by
        simp [insertA]
      rw [he]
      simp only [List.map_cons, List.nodup_cons]
      exact h
    · simp only [insertA, if_neg hk, List.map_cons, List.nodup_cons]
      refine ⟨?_, ih h.2⟩
      rw [mem_keys_insertA]
      rintro (hmem | rfl)
      · exact h.1 hmem
      · exact hk rfl

theorem lookupA_eq_of_mem_nodup {κ α : Type} [DecidableEq κ]
    {m : List (κ × α)} {k : κ} {v : α}
    (hnd : (m.map Prod.fst).Nodup) (hmem : (k, v) ∈ m) :
    lookupA m k = some v := by
  induction m with
  | nil => cases hmem
  | cons kv rest ih =>
    obtain ⟨ka, va⟩ := kv
    simp only [List.map_cons, List.nodup_cons] at hnd
    rcases List.mem_cons.mp hmem with h1 | h1
    · injection h1 with h2 h3
      subst h2; subst h3
      simp [lookupA]
    · have hka : ka ≠ k := by
        rintro rfl
        exact hnd.1 (by simpa using List.mem_map_of_mem Prod.fst h1)
      simp only [lookupA, if_neg hka]
      exact ih hnd.2 h1

theorem countFold_keys_nodup (l : List (List String)) :
    ∀ acc : List (List String × Nat), ((acc.map Prod.fst).Nodup) →
      (((l.foldl bumpCount acc).map Prod.fst).Nodup) := by
  induction l with
  | nil => intro acc h; exact h
  | cons s rest ih =>
    intro acc h
    rw [List.foldl_cons]
    refine ih _ ?_
    unfold bumpCount
    rcases lookupA acc s with _ | v
    · exact insertA_keys_nodup h
    · exact insertA_keys_nodup h

/-- Every entry of the sample counter records the exact-match frequency of
its stack. -/
theorem mem_samplesCounter_count {samples : List (List String)}
    {k : List String} {v : Nat} (h : (k, v) ∈ samplesCounter samples) :
    v = samples.count k := by
  have hnd : ((samplesCounter samples).map Prod.fst).Nodup :=
    countFold_keys_nodup samples [] (by simp)
  have hl := lookupA_eq_of_mem_nodup hnd h
  have hcount := lookupA_countFold samples [] k
  rw [show samples.foldl bumpCount [] = samplesCounter samples from rfl] at hcount
  rw [hl] at hcount
  simpa [lookupA] using hcount

theorem mem_foldl_append_guard {α β : Type} (p : α → Prop) [DecidablePred p]
    (g : α → β) :
    ∀ (l : List α) (acc : List β) (x : β),
      x ∈ l.foldl (fun acc a => if p a then acc ++ [g a] else acc) acc →
        x ∈ acc ∨ ∃ a ∈ l, p a ∧ x = g a := by
  intro l
  induction l with
  | nil => intro acc x h; exact Or.inl h
  | cons a rest ih =>
    intro acc x h
    rw [List.foldl_cons] at h
    by_cases ha : p a
    · rw [if_pos ha] at h
      rcases ih _ x h with h1 | ⟨b, hb, hpb, hx⟩
      · rcases List.mem_append.mp h1 with h2 | h2
        · exact Or.inl h2
        · simp only [List.mem_singleton] at h2
          exact Or.inr ⟨a, List.mem_cons_self _ _, ha, h2⟩
      · exact Or.inr ⟨b, List.mem_cons_of_mem _ hb, hpb, hx⟩
    · rw [if_neg ha] at h
      rcases ih _ x h with h1 | ⟨b, hb, hpb, hx⟩
      · exact Or.inl h1
      · exact Or.inr ⟨b, List.mem_cons_of_mem _ hb, hpb, hx⟩

/-- Every produced chain comes from a counter entry. -/
theorem mem_buildSampleChains {samples : List (List String)} {c : SampleChain}
    (h : c ∈ buildSampleChains samples) :
    (c.chain, c.count) ∈ samplesCounter samples := by
  simp only [buildSampleChains] at h
  have := mem_foldl_append_guard
    (fun kc : List String × Nat => kc.1.length > 0) _ _ _ _ h
  rcases this with h1 | ⟨kc, hkc, _, rfl⟩
  · cases h1
  · simpa using hkc

/-- A small concrete sample list: the stack `[main, f]` occurs twice, the
stack `[main, g]` twice. -/
def exStacks : List (List String) :=
  [["Thread-MainThread", "f(a.py:1)"], ["Thread-MainThread", "g(a.py:2)"],
   ["Thread-MainThread", "f(a.py:1)"], ["Thread-MainThread", "g(a.py:2)"]]

theorem exStacks_chains :
    buildSampleChains exStacks =
      [{ chain := ["Thread-MainThread", "f(a.py:1)"], count := 2, percentage := 50 },
       { chain := ["Thread-MainThread", "g(a.py:2)"], count := 2, percentage := 50 }] := by
  norm_num +decide [buildSampleChains, samplesCounter, bumpCount, exStacks,
    insertA, lookupA]

end Profiler2

/-! ## Iface: `Py-Spy/profiler.py`, `analyze_file`

`analyze_file` loads the target module (executing its body once inside the
`try` of `load_module_from_file`), then dispatches on the mode; the
function-level and line-level analyses re-execute the source under the
profiler with a bare `exec` that is wrapped in no handler.  The embedding
carries the outcomes of the two executions in the script value:
`Except.error` models a raised Python exception, and in the result type of
`analyzeFile` it models an exception propagating out of `analyze_file` to
the caller. -/

namespace Iface

/-- The observable behaviour of a target script in one analysis request: the
outcome of executing the module body at load time, and the outcome of
re-executing the source under the profiler (a stateful script can succeed at
load and raise on re-execution).  On success the second run yields the raw
stats table. -/
structure Script where
  loadOutcome : Except String Unit
  runOutcome : Except String (List Profiler1.StatsEntry)

/-- A value returned by `analyze_file` (as opposed to an exception): either
the `{"error": ...}` object or a mode result dictionary.  `lineOut`
abstracts the line-level output table, whose text parsing is
presentation-layer work outside the aggregation core. -/
inductive AnalysisValue
  | errorObj (msg : String)
  | functionOut (results : List Profiler1.FunctionRecord)
      (call_chains : List Profiler1.CallChain)
  | lineOut
  deriving Repr

def AnalysisValue.isErrorObj : AnalysisValue → Bool
  | .errorObj _ => true
  | _ => false

/-- `analyze_file`: a failed load is caught inside `load_module_from_file`
and returned as an error object; an unsupported mode returns an error
object; an exception raised by the target during the instrumented `exec` of
`_analyze_function_level` or `_analyze_line_level` propagates. -/
def analyzeFile (s : Script) (mode : String) : Except String AnalysisValue :=
  match s.loadOutcome with
  | .error _ => .ok (.errorObj "Failed to load file")
  | .ok _ =>
    if mode = "function" then
      match s.runOutcome with
      | .error e => .error e
      | .ok stats =>
        .ok (.functionOut (Profiler1.analyzeFunctionLevel stats).1
          (Profiler1.analyzeFunctionLevel stats).2)
    else if mode = "line" then
      match s.runOutcome with
      | .error e => .error e
      | .ok _ => .ok .lineOut
    else
      .ok (.errorObj "Unsupported analysis mode")

end Iface

/-! ## Rule engine: shared record and syntax-node model

Python passes dictionaries to statistics predicates and `ast` nodes to
structural predicates.  `Rec` embeds the statistics dictionaries (fields may
be absent); `AstNode` abstracts a syntax-tree node by the pattern tests the
rule libraries perform on it (`ast` is an external library), plus its source
line.  A serialized predicate expression is embedded by its compilation
outcome (`eval` is the Python runtime): compilation either yields a callable
— which may itself raise at call time — or fails like the `SyntaxError` of
`eval("lambda node: calls >")`. -/

namespace Rules

/-- A statistics record as seen by non-AST rule predicates, covering the
function-, line- and memory-level record shapes.  `line_nat` stands for the
parsed `int(...)` of the `"Line"` column and `mem_usage_q` for the parsed
`float(...)` of the `"Mem usage"` column (`none` for the empty string). -/
structure Rec where
  function : String := ""
  calls : Option Nat := none
  total_time : Option Rat := none
  average_time : Option Rat := none
  line_number : Option Nat := none
  hits : Option Nat := none
  percent_time : Option Rat := none
  line_nat : Option Nat := none
  mem_usage_q : Option Rat := none
  deriving Repr

/-- A syntax-tree node, abstracted by the structural pattern tests of the
rule libraries.  Each Boolean field is one `ast`-pattern test. -/
structure AstNode where
  lineno : Option Nat := none
  /-- `For` over `range(0, 1, ...)` with ≥ 2 arguments. -/
  isForRange01 : Bool := false
  /-- `For` containing a `BinOp` of a `Name` and a `Num`. -/
  isForWithNameNumBinOp : Bool := false
  /-- `Call` whose callee is a bare `Name`. -/
  isCallNameFunc : Bool := false
  /-- `ListComp`, or `For` whose first body statement assigns a `List`. -/
  isListCompOrListForAssign : Bool := false
  /-- `Dict` whose keys are the integers `0..n-1`. -/
  isDictIntKeysFromZero : Bool := false
  /-- `Import` or `ImportFrom`. -/
  isImport : Bool := false
  /-- `Try` with at least one handler. -/
  isTryWithHandlers : Bool := false
  deriving Repr

/-- The argument of a stored rule predicate: Python passes either a syntax
node (structural rules) or a statistics dictionary (statistics rules). -/
abbrev RuleInput := Sum AstNode Rec

/-- A serialized predicate expression together with the outcome of compiling
it with `eval`: a callable over a statistics record (which may itself raise
at call time, modelled by `Except.error`), or a compile-time failure such as
the `SyntaxError` of `"calls >"`. -/
structure CheckSrc where
  src : String
  compiled : Except String (Rec → Except String Bool)

/-- The nodes of a parsed syntax tree in visit order, each paired with the
enclosing function name tracked by `visit_FunctionDef` (the traversal itself
is the external `ast.NodeVisitor`). -/
abbrev Walk := List (AstNode × Option String)

/-- One element of the `analysis_results` list handed to the suggestion
generators, dispatched on its `"mode"` key.  A memory result carries
`(function, memory_usage)` pairs. -/
inductive AnalysisResult
  | functionMode (results : List Rec)
  | lineMode (results : List Rec)
  | memoryMode (results : List (String × List Rec))
  | otherMode

/-- The malformed predicate expression of the specification's scenario:
compiling `"calls >"` with `eval` raises a `SyntaxError`. -/
def malformedCheck : CheckSrc :=
  { src := "calls >", compiled := .error "SyntaxError: invalid syntax" }

/-- A well-formed custom predicate expression `"calls > 100"`. -/
def goodCheck : CheckSrc :=
  { src := "calls > 100",
    compiled := .ok (fun r => .ok (decide (r.calls.getD 0 > 100))) }

end Rules

/-! ## RulesPySpy: `src/Py_Spy/recommender.py` -/

namespace RulesPySpy

open Rules

/-- A rule dictionary of the `RuleManager`: `is_ast_based` is read with
`.get('is_ast_based', True)`, hence optional. -/
structure Rule where
  description : String
  check : RuleInput → Except String Bool
  suggestion : String
  is_ast_based : Option Bool

/-- Default rule `loop_optimization`: an `ast.For` over `range(0, 1, ...)`;
`isinstance` is false on a statistics dictionary. -/
def loopOptimizationRule : Rule :=
  { description := "Optimize loops to reduce unnecessary iterations."
    check := fun input =>
      match input with
      | .inl node => .ok node.isForRange01
      | .inr _ => .ok false
    suggestion := "Remove the unnecessary range with start 0 and stop 1."
    is_ast_based := some true }

/-- Default rule `cache_suggestion`: a `Call` of a bare `Name`. -/
def cacheSuggestionRule : Rule :=
  { description := "Cache function results if the same function is called multiple times with the same arguments."
    check := fun input =>
      match input with
      | .inl node => .ok node.isCallNameFunc
      | .inr _ => .ok false
    suggestion := "Consider using functools.lru_cache to cache the function results."
    is_ast_based := some true }

/-- Default rule `function_call_optimization`:
`stats.get("calls", 0) > 3`; calling `.get` on a syntax node raises. -/
def functionCallOptimizationRule : Rule :=
  { description := "Optimize function calls to reduce overhead."
    check := fun input =>
      match input with
      | .inl _ => .error "AttributeError"
      | .inr r => .ok (decide (r.calls.getD 0 > 3))
    suggestion := "Consider optimizing the function or reducing the number of calls."
    is_ast_based := some false }

/-- The rule dictionary set up by `RuleManager.__init__`. -/
def initRules : List (String × Rule) :=
  [("loop_optimization", loopOptimizationRule),
   ("cache_suggestion", cacheSuggestionRule),
   ("function_call_optimization", functionCallOptimizationRule)]

structure RuleManager where
  rules : List (String × Rule)

def RuleManager.init : RuleManager := ⟨initRules⟩

/-- `add_rule`: replaces an existing rule of the same name. -/
def RuleManager.addRule (rm : RuleManager) (name description : String)
    (check : RuleInput → Except String Bool) (suggestion : String)
    (isAstBased : Bool := true) : RuleManager :=
  ⟨insertA rm.rules name
    { description := description, check := check, suggestion := suggestion,
      is_ast_based := some isAstBased }⟩

/-- `remove_rule`: deletes the name if present. -/
def RuleManager.removeRule (rm : RuleManager) (name : String) : RuleManager :=
  ⟨rm.rules.filter (fun kv => kv.1 ≠ name)⟩

/-- `get_all_rules` (the spec's `get_all_rules`). -/
def RuleManager.getAllRules (rm : RuleManager) : List (String × Rule) :=
  rm.rules

/-- `get_ast_rules` (the spec's `get_structural_rules`). -/
def RuleManager.getAstRules (rm : RuleManager) : List (String × Rule) :=
  rm.rules.filter (fun kv => kv.2.is_ast_based.getD true)

/-- `get_non_ast_rules` (the spec's `get_statistics_rules`). -/
def RuleManager.getNonAstRules (rm : RuleManager) : List (String × Rule) :=
  rm.rules.filter (fun kv => !(kv.2.is_ast_based.getD true))

/-- `CustomRuleBuilder.build_non_ast_rule`: the `try` wraps only a `def`,
which cannot raise — the serialized condition is compiled by `eval` only
when the returned checker is called, so the builder always returns a rule
and its `raise ValueError` path is unreachable.  A malformed condition
surfaces only when the predicate is evaluated. -/
def buildNonAstRule (checkCondition : CheckSrc)
    (description suggestion : String) : Rule :=
  { description := description
    check := fun input =>
      match checkCondition.compiled with
      | .error e => .error e
      | .ok f =>
        match input with
        | .inr r => f r
        | .inl _ => .error "TypeError"
    suggestion := suggestion
    is_ast_based := some false }

/-- One generated suggestion: the rule's name and texts, the triggering line
and (when known) the enclosing or owning function. -/
structure Suggestion where
  rule : String
  description : String
  suggestion : String
  line : Option Nat
  function : Option String
  deriving Repr

/-- The suggestion dictionary built for one matching rule. -/
def mkSuggestion (name : String) (rule : Rule) (line : Option Nat)
    (fn : Option String) : Suggestion :=
  { rule := name, description := rule.description,
    suggestion := rule.suggestion, line := line, function := fn }

/-- Apply every rule of a rule set to one input inside `try`/`except`:
matches append a suggestion, a raising predicate is logged and skipped. -/
def applyRuleSet (ruleSet : List (String × Rule)) (input : RuleInput)
    (line : Option Nat) (fn : Option String) : List Suggestion :=
  ruleSet.foldl
    (fun acc nr =>
      match nr.2.check input with
      | .ok true => acc ++ [mkSuggestion nr.1 nr.2 line fn]
      | .ok false => acc
      | .error _ => acc)
    []

/-- The `ASTVisitor` walk: at every node apply every AST-based rule, with
the node's line and the enclosing function name as context. -/
def visitorSuggestions (rm : RuleManager) (walk : Walk) : List Suggestion :=
  walk.foldl
    (fun acc node =>
      acc ++ applyRuleSet rm.getAstRules (.inl node.1) node.1.lineno node.2)
    []

/-- The statistics loops of `generate_optimization_suggestions`: for each
function/line/memory record, every non-AST rule is applied. -/
def statsSuggestions (rm : RuleManager) (analysis : List AnalysisResult) :
    List Suggestion :=
  analysis.foldl
    (fun acc res =>
      acc ++
        match res with
        | .functionMode rs =>
          rs.foldl (fun a r =>
            a ++ applyRuleSet rm.getNonAstRules (.inr r) r.line_number
              (some r.function)) []
        | .lineMode rs =>
          rs.foldl (fun a r =>
            a ++ applyRuleSet rm.getNonAstRules (.inr r) r.line_number
              (some r.function)) []
        | .memoryMode ms =>
          ms.foldl (fun a m =>
            a ++ m.2.foldl (fun b u =>
              b ++ applyRuleSet rm.getNonAstRules (.inr u)
                (some (u.line_nat.getD 0)) (some m.1)) []) []
        | .otherMode => [])
    []

/-- `generate_optimization_suggestions`: the `try` wraps only `ast.parse`
and the visitor (`except SyntaxError` prints and falls through), then the
statistics loops always run.  `parsed` is the outcome of `ast.parse`. -/
def generateOptimizationSuggestions (parsed : Except String Walk)
    (analysis : List AnalysisResult) (rm : RuleManager) : List Suggestion :=
  (match parsed with
   | .ok walk => visitorSuggestions rm walk
   | .error _ => []) ++ statsSuggestions rm analysis

/-- One `add_rule`/`remove_rule` call. -/
inductive RuleOp
  | add (name description : String) (check : RuleInput → Except String Bool)
      (suggestion : String) (isAstBased : Bool)
  | remove (name : String)

/-- The rule manager reached from the freshly constructed one by a sequence
of `add_rule`/`remove_rule` calls. -/
def applyOps (ops : List RuleOp) : RuleManager :=
  ops.foldl
    (fun rm op =>
      match op with
      | .add n d c s b => rm.addRule n d c s b
      | .remove n => rm.removeRule n)
    RuleManager.init

theorem foldl_mem_mono {α β : Type} (f : List β → α → List β)
    (hf : ∀ acc a x, x ∈ acc → x ∈ f acc a) :
    ∀ (l : List α) (acc : List β) (x : β), x ∈ acc → x ∈ l.foldl f acc := by
  intro l
  induction l with
  | nil => intro acc x h; exact h
  | cons a rest ih =>
    intro acc x h
    rw [List.foldl_cons]
    exact ih _ x (hf acc a x h)

theorem applyRuleSet_step_mono (input : RuleInput) (line : Option Nat)
    (fn : Option String) :
    ∀ (acc : List Suggestion) (nr : String × Rule) (x : Suggestion), x ∈ acc →
      x ∈ (match nr.2.check input with
           | .ok true => acc ++ [mkSuggestion nr.1 nr.2 line fn]
           | .ok false => acc
           | .error _ => acc) := by
  intro acc nr x hx
  rcases nr.2.check input with e | b
  · exact hx
  · cases b
    · exact hx
    · exact List.mem_append_left _ hx

/-- A rule that matches contributes its suggestion to `applyRuleSet`. -/
theorem mem_applyRuleSet {input : RuleInput} {line : Option Nat}
    {fn : Option String} {name : String} {rule : Rule}
    (ruleSet : List (String × Rule))
    (hmem : (name, rule) ∈ ruleSet) (hcheck : rule.check input = .ok true) :
    mkSuggestion name rule line fn ∈ applyRuleSet ruleSet input line fn := by
  have haux : ∀ (l : List (String × Rule)) (acc : List Suggestion),
      (name, rule) ∈ l →
      mkSuggestion name rule line fn ∈
        l.foldl
          (fun acc nr =>
            match nr.2.check input with
            | .ok true => acc ++ [mkSuggestion nr.1 nr.2 line fn]
            | .ok false => acc
            | .error _ => acc)
          acc := by
    intro l
    induction l with
    | nil => intro acc h; cases h
    | cons nr rest ih =>
      intro acc hm
      rw [List.foldl_cons]
      rcases List.mem_cons.mp hm with h1 | h1
      · rw [← h1]
        have hstep :
            (match rule.check input with
             | .ok true => acc ++ [mkSuggestion name rule line fn]
             | .ok false => acc
             | .error _ => acc) = acc ++ [mkSuggestion name rule line fn] := by
          rw [hcheck]
        rw [hstep]
        exact foldl_mem_mono _ (applyRuleSet_step_mono input line fn) rest _ _
          (List.mem_append_right _ (List.mem_singleton.mpr rfl))
      · exact ih _ h1
  exact haux ruleSet [] hmem

/-- A matching non-AST rule contributes its suggestion to the statistics
loops, for a record of a function-mode analysis result. -/
theorem mem_statsSuggestions_function {rm : RuleManager}
    {analysis : List AnalysisResult} {rs : List Rec} {r : Rec}
    {name : String} {rule : Rule}
    (hres : AnalysisResult.functionMode rs ∈ analysis) (hr : r ∈ rs)
    (hrule : (name, rule) ∈ rm.getNonAstRules)
    (hcheck : rule.check (.inr r) = .ok true) :
    mkSuggestion name rule r.line_number (some r.function) ∈
      statsSuggestions rm analysis := by
  unfold statsSuggestions
  rw [Profiler1.mem_foldl_append]
  refine Or.inr ⟨.functionMode rs, hres, ?_⟩
  rw [Profiler1.mem_foldl_append]
  exact Or.inr ⟨r, hr, mem_applyRuleSet _ hrule hcheck⟩

end RulesPySpy

/-! ## RulesSprint3: `src/recommender.py` -/

namespace RulesSprint3

open Rules

/-- A rule object parsed from the custom-rules JSON file: the three expected
keys, each possibly missing; the check expression is carried as its
compilation outcome (the compiled callable's parameter is named `node` in
the source, but the engine only ever applies custom rules to statistics
records). -/
structure RawCustomRule where
  description : Option String
  check : Option CheckSrc
  suggestion : Option String

/-- A validated custom rule. -/
structure LoadedRule where
  description : String
  check : Rec → Except String Bool
  suggestion : String

/-- The body of the validation loop of `load_custom_rules` for one rule: a
rule missing one of the three keys is silently dropped; otherwise `eval`
compiles the serialized check — a compile failure is caught, a warning
recorded, and only that rule skipped. -/
def loadStep (acc : List (String × LoadedRule) × List String)
    (nr : String × RawCustomRule) :
    List (String × LoadedRule) × List String :=
  match nr.2.description, nr.2.check, nr.2.suggestion with
  | some d, some ck, some sg =>
    match ck.compiled with
    | .ok f =>
      (insertA acc.1 nr.1 { description := d, check := f, suggestion := sg },
       acc.2)
    | .error _ =>
      (acc.1,
       acc.2 ++ ["Warning: Invalid check function for custom rule " ++ nr.1])
  | _, _, _ => acc

/-- `load_custom_rules` (after the JSON file has been read).  Returns the
validated rules and the warnings. -/
def loadCustomRules (rules : List (String × RawCustomRule)) :
    List (String × LoadedRule) × List String :=
  rules.foldl loadStep ([], [])

theorem loadStep_lookup_ne {acc : List (String × LoadedRule) × List String}
    {nr : String × RawCustomRule} {name : String} (hne : nr.1 ≠ name) :
    lookupA (loadStep acc nr).1 name = lookupA acc.1 name := by
  obtain ⟨rname, rr⟩ := nr
  obtain ⟨rd, rc, rs⟩ := rr
  unfold loadStep
  rcases rd with _ | d <;> rcases rc with _ | ck <;> rcases rs with _ | sg <;>
    try rfl
  obtain ⟨cksrc, ckc⟩ := ck
  rcases ckc with e | f
  · rfl
  · exact lookupA_insertA_ne _ _ _ _ hne

theorem loadStep_warn_mono {acc : List (String × LoadedRule) × List String}
    {nr : String × RawCustomRule} {w : String} (hw : w ∈ acc.2) :
    w ∈ (loadStep acc nr).2 := by
  obtain ⟨rname, rr⟩ := nr
  obtain ⟨rd, rc, rs⟩ := rr
  unfold loadStep
  rcases rd with _ | d <;> rcases rc with _ | ck <;> rcases rs with _ | sg <;>
    try exact hw
  obtain ⟨cksrc, ckc⟩ := ck
  rcases ckc with e | f
  · exact List.mem_append_left _ hw
  · exact hw

theorem loadFold_lookup_stable {name : String} :
    ∀ (l : List (String × RawCustomRule))
      (acc : List (String × LoadedRule) × List String),
      name ∉ l.map Prod.fst →
      lookupA (l.foldl loadStep acc).1 name = lookupA acc.1 name := by
  intro l
  induction l with
  | nil => intro acc _; rfl
  | cons nr rest ih =>
    intro acc hn
    simp only [List.map_cons, List.mem_cons] at hn
    push_neg at hn
    rw [List.foldl_cons, ih _ hn.2, loadStep_lookup_ne (fun h => hn.1 h.symm)]

theorem loadFold_warn_mono {w : String} :
    ∀ (l : List (String × RawCustomRule))
      (acc : List (String × LoadedRule) × List String),
      w ∈ acc.2 → w ∈ (l.foldl loadStep acc).2 := by
  intro l
  induction l with
  | nil => intro acc h; exact h
  | cons nr rest ih =>
    intro acc h
    rw [List.foldl_cons]
    exact ih _ (loadStep_warn_mono h)

/-- The validation loop, relative to an arbitrary accumulator: a complete
rule whose check fails to compile contributes nothing to the rule table and
one warning; a complete rule whose check compiles ends up in the table. -/
theorem loadFold_spec {name : String} {rr : RawCustomRule} {d : String}
    {ck : CheckSrc} {sg : String} :
    ∀ (l : List (String × RawCustomRule))
      (acc : List (String × LoadedRule) × List String),
      (name, rr) ∈ l → (l.map Prod.fst).Nodup →
      rr.description = some d → rr.check = some ck → rr.suggestion = some sg →
      (∀ e, ck.compiled = .error e →
        lookupA (l.foldl loadStep acc).1 name = lookupA acc.1 name ∧
        ("Warning: Invalid check function for custom rule " ++ name) ∈
          (l.foldl loadStep acc).2) ∧
      (∀ f, ck.compiled = .ok f →
        lookupA (l.foldl loadStep acc).1 name =
          some { description := d, check := f, suggestion := sg }) := by
  obtain ⟨rdf, rcf, rsf⟩ := rr
  obtain ⟨cksrc, ckc⟩ := ck
  intro l
  induction l with
  | nil => intro acc h; cases h
  | cons nr rest ih =>
    intro acc hmem hnd hd hck hsg
    simp only at hd hck hsg
    simp only [List.map_cons, List.nodup_cons] at hnd
    rcases List.mem_cons.mp hmem with h1 | h1
    · subst h1
      subst hd
      subst hck
      subst hsg
      have hnotin : name ∉ rest.map Prod.fst := hnd.1
      constructor
      · intro e hce
        simp only at hce
        subst hce
        rw [List.foldl_cons]
        have hstep :
            loadStep acc
              (name,
               { description := some d,
                 check := some { src := cksrc, compiled := .error e },
                 suggestion := some sg }) =
            (acc.1,
             acc.2 ++ ["Warning: Invalid check function for custom rule " ++ name]) :=
          rfl
        rw [hstep]
        refine ⟨?_, ?_⟩
        · rw [loadFold_lookup_stable rest _ hnotin]
        · exact loadFold_warn_mono rest _
            (List.mem_append_right _ (List.mem_singleton.mpr rfl))
      · intro f hcf
        simp only at hcf
        subst hcf
        rw [List.foldl_cons]
        have hstep :
            loadStep acc
              (name,
               { description := some d,
                 check := some { src := cksrc, compiled := .ok f },
                 suggestion := some sg }) =
            (insertA acc.1 name { description := d, check := f, suggestion := sg },
             acc.2) :=
          rfl
        rw [hstep, loadFold_lookup_stable rest _ hnotin]
        exact lookupA_insertA_self _ _ _
    · have hne : nr.1 ≠ name := by
        intro h
        apply hnd.1
        rw [h]
        exact List.mem_map_of_mem Prod.fst h1
      have hrec := ih (loadStep acc nr) h1 hnd.2 hd hck hsg
      rw [List.foldl_cons]
      constructor
      · intro e hce
        obtain ⟨hl, hw⟩ := hrec.1 e hce
        exact ⟨by rw [hl, loadStep_lookup_ne hne], hw⟩
      · intro f hcf
        exact hrec.2 f hcf

/-- A structural rule of the module-level `OPTIMIZATION_RULES`, with its
pattern test on the abstracted node. -/
structure AstRule where
  name : String
  description : String
  suggestion : String
  nodeTest : AstNode → Bool

/-- The seven structural rules applied by the Sprint-3 `ASTVisitor`, in the
dictionary order of `OPTIMIZATION_RULES` restricted to the visitor's name
list. -/
def sprint3AstRules : List AstRule :=
  [{ name := "loop_optimization"
     description := "Optimize loops to reduce unnecessary iterations."
     suggestion := "Remove the unnecessary range with start 0 and stop 1."
     nodeTest := fun n => n.isForRange01 },
   { name := "redundant_calculation"
     description := "Avoid redundant calculations inside loops."
     suggestion := "Move the redundant calculation outside the loop."
     nodeTest := fun n => n.isForWithNameNumBinOp },
   { name := "cache_suggestion"
     description := "Cache function results if the same function is called multiple times with the same arguments."
     suggestion := "Consider using functools.lru_cache to cache the function results."
     nodeTest := fun n => n.isCallNameFunc },
   { name := "list_to_generator"
     description := "Replace list operations with generators to reduce memory usage if the list is not reused extensively."
     suggestion := "Convert list comprehensions to generator expressions or use generator functions instead of creating lists."
     nodeTest := fun n => n.isListCompOrListForAssign },
   { name := "dict_optimization"
     description := "When a dictionary has consecutive integer keys starting from 0, consider using a list for better access performance."
     suggestion := "Convert the dictionary to a list."
     nodeTest := fun n => n.isDictIntKeysFromZero },
   { name := "delayed_import_optimization"
     description := "Optimize delayed imports to improve startup performance."
     suggestion := "Consider moving imports inside functions if they're not needed at startup."
     nodeTest := fun n => n.isImport },
   { name := "exception_handling_optimization"
     description := "Optimize exception handling to avoid performance penalties."
     suggestion := "Avoid broad exception handling; use specific exceptions where possible."
     nodeTest := fun n => n.isTryWithHandlers }]

/-- One suggestion of the Sprint-3 engine.  `details_total_time` is the
`details["total_time"]` entry, the only details entry consulted by the
severity sort; the remaining `details` entries are report payload carried
unchanged from the triggering record. -/
structure Suggestion3 where
  rule : String
  description : String
  suggestion : String
  line : Option Nat := none
  function : Option String := none
  details_total_time : Option Rat := none
  deriving Repr

/-- The severity proxy of the final sort:
`x.get("details", {}).get("total_time", 0)`. -/
def sortKey (s : Suggestion3) : Rat :=
  s.details_total_time.getD 0

/-- `suggestions.sort(key=..., reverse=True)`: stable descending sort by the
severity proxy. -/
def sortBySeverity (l : List Suggestion3) : List Suggestion3 :=
  l.mergeSort (fun a b => decide (sortKey b ≤ sortKey a))

/-- The Sprint-3 `ASTVisitor`: at every node of the walk, each of the seven
structural rules is applied (without any handler around the predicates; the
abstracted pattern tests are total). -/
def visitor3 (walk : Walk) : List Suggestion3 :=
  walk.foldl
    (fun acc node =>
      acc ++ sprint3AstRules.foldl
        (fun a rb =>
          if rb.nodeTest node.1 then
            a ++ [{ rule := rb.name, description := rb.description,
                    suggestion := rb.suggestion, line := node.1.lineno,
                    function := node.2 }]
          else a)
        [])
    []

/-- `function_call_optimization` of `OPTIMIZATION_RULES`:
`stats.get("total_time", 0) > 0.005 and stats.get("calls", 0) > 1`. -/
def functionCallOptCheck (r : Rec) : Bool :=
  decide (r.total_time.getD 0 > 5 / 1000) && decide (r.calls.getD 0 > 1)

/-- `line_optimization` of `OPTIMIZATION_RULES`:
`stats.get("percent_time", 0) > 10`. -/
def lineOptCheck (r : Rec) : Bool :=
  decide (r.percent_time.getD 0 > 10)

/-- `memory_optimization` of `OPTIMIZATION_RULES`: by the precedence of the
conditional expression, a non-empty `"Mem usage"` column yields its parsed
float (truthy unless zero) and an empty one yields `0 > 48`, i.e. `False`. -/
def memoryOptCheck (r : Rec) : Bool :=
  match r.mem_usage_q with
  | some v => decide (v ≠ 0)
  | none => decide ((0 : Nat) > 48)

/-- The default statistics rules as `LoadedRule`s, for merging with the
custom rules (`{**OPTIMIZATION_RULES, **custom_rules}`). -/
def defaultStatsRule (name : String) : LoadedRule :=
  if name = "function_call_optimization" then
    { description := "Optimize function calls to reduce overhead."
      check := fun r => .ok (functionCallOptCheck r)
      suggestion := "Consider optimizing the function or reducing the number of calls." }
  else if name = "line_optimization" then
    { description := "Optimize lines with high execution time."
      check := fun r => .ok (lineOptCheck r)
      suggestion := "Review and optimize this line of code." }
  else
    { description := "Optimize memory usage in functions."
      check := fun r => .ok (memoryOptCheck r)
      suggestion := "Review and optimize memory usage in this function." }

/-- The rule the statistics loops actually apply under a given name: the
merged dictionary prefers a custom rule of the same name. -/
def effectiveRule (customRules : List (String × LoadedRule)) (name : String) :
    LoadedRule :=
  (lookupA customRules name).getD (defaultStatsRule name)

/-- `generate_optimization_suggestions` of `src/recommender.py`.  The `try`
block wraps the `ast.parse`, the visitor AND the statistics loops, catching
only `SyntaxError`: a parse failure therefore abandons the statistics loops
and sorts the (empty) list gathered so far.  A custom rule predicate raising
during the loops is not caught and propagates (`Except.error`). -/
def generateOptimizationSuggestions (parsed : Except String Walk)
    (analysis : List AnalysisResult)
    (customRules : List (String × LoadedRule)) :
    Except String (List Suggestion3) :=
  match parsed with
  | .error _ => .ok (sortBySeverity [])
  | .ok walk => do
    let astSugs := visitor3 walk
    let all ← analysis.foldlM
      (fun acc res =>
        match res with
        | .functionMode rs =>
          rs.foldlM
            (fun a r => do
              let rule := effectiveRule customRules "function_call_optimization"
              let b ← rule.check r
              if b then
                pure (a ++ [{ rule := "function_call_optimization",
                              description := rule.description,
                              suggestion := rule.suggestion,
                              function := some r.function,
                              line := r.line_number,
                              details_total_time := r.total_time : Suggestion3 }])
              else pure a)
            acc
        | .lineMode rs =>
          rs.foldlM
            (fun a r => do
              let rule := effectiveRule customRules "line_optimization"
              let b ← rule.check r
              if b then
                pure (a ++ [{ rule := "line_optimization",
                              description := rule.description,
                              suggestion := rule.suggestion,
                              function := some r.function,
                              line := r.line_number,
                              details_total_time := r.total_time : Suggestion3 }])
              else pure a)
            acc
        | .memoryMode ms =>
          ms.foldlM
            (fun a m =>
              m.2.foldlM
                (fun b u => do
                  let rule := effectiveRule customRules "memory_optimization"
                  let bb ← rule.check u
                  if bb then
                    pure (b ++ [{ rule := "memory_optimization",
                                  description := rule.description,
                                  suggestion := rule.suggestion,
                                  function := some m.1,
                                  line := some (u.line_nat.getD 0) : Suggestion3 }])
                  else pure b)
                a)
            acc
        | .otherMode => pure acc)
      astSugs
    pure (sortBySeverity all)

/-- A custom-rules file with one well-formed and one malformed rule. -/
def exCustomRules : List (String × RawCustomRule) :=
  [("good_rule",
    { description := some "gd", check := some Rules.goodCheck,
      suggestion := some "gs" }),
   ("bad_rule",
    { description := some "bd", check := some Rules.malformedCheck,
      suggestion := some "bs" })]

/-- A function-mode statistics record that triggers
`function_call_optimization` in both engines (5 calls, total time 1). -/
def exFuncRec : Rec :=
  { function := "process_data", calls := some 5, total_time := some 1,
    average_time := some (1 / 5), line_number := some 3 }

end RulesSprint3

/-! ## Claims on the aggregation core of `Py-Spy/profiler.py` -/

open Profiler1

/-- C1: for every aggregated result, each CallChain's `self_time` equals the
average time of the chain's last element minus the sum of the average times
of that element's filtered direct callees; the value is reported as-is and
may be negative — witnessed by the cyclic input, whose second chain has
self time −1 — never clamped. -/
theorem C1_self_time (stats : List StatsEntry) :
    (∀ cc ∈ (analyzeFunctionLevel stats).2, ∃ last,
      cc.chain.getLast? = some last ∧
      cc.self_time = avgOf (firstPass stats) last -
        ((filteredCallees (firstPass stats) last).map (avgOf (firstPass stats))).sum) ∧
    (∃ cc ∈ (analyzeFunctionLevel cycStats).2, cc.self_time < 0) := by
  constructor
  · intro cc hcc
    obtain ⟨f, hf, hbcc⟩ := mem_analyze_chains hcc
    obtain ⟨g, hlast, _, hself, _⟩ := buildCallChains_record_spec _ _ _ _ cc hbcc
    exact ⟨g, hlast, by rw [hself, selfTimeOf_eq]⟩
  · refine ⟨{ chain := ["A", "B"], count := 1, self_time := -1, children := [0] },
      ?_, ?_⟩
    · rw [cycStats_chains]; simp
    · norm_num

/-- Witness for C1 at the cyclic input's first chain. -/
theorem C1_self_time_witness :
    ∃ last,
      ({ chain := ["A"], count := 1, self_time := 1, children := [1] } :
        CallChain).chain.getLast? = some last ∧
      ({ chain := ["A"], count := 1, self_time := 1, children := [1] } :
        CallChain).self_time = avgOf (firstPass cycStats) last -
        ((filteredCallees (firstPass cycStats) last).map
          (avgOf (firstPass cycStats))).sum :=
  (C1_self_time cycStats).1
    { chain := ["A"], count := 1, self_time := 1, children := [1] }
    (by rw [cycStats_chains]; simp)

/-- C2, counterexample: on `c2Stats` the first chain `["alpha"]` stores the
child index 0, but the chain at position 0 of the chain list is `["alpha"]`
itself, not an extension of `["alpha"]` by one element — the `children`
indices point into the function table, not into the chain list. -/
theorem C2_counterexample :
    ∃ cc ∈ (analyzeFunctionLevel c2Stats).2, ∃ i ∈ cc.children,
      ∀ cc2, (analyzeFunctionLevel c2Stats).2[i]? = some cc2 →
        ∀ s, cc2.chain ≠ cc.chain ++ [s] := by
  refine ⟨{ chain := ["alpha"], count := 1, self_time := 1, children := [0] },
    by rw [c2Stats_chains]; simp, 0, by simp, ?_⟩
  intro cc2 h2 s
  rw [c2Stats_chains] at h2
  simp only [List.getElem?_cons_zero, Option.some.injEq] at h2
  subst h2
  intro hcontra
  have := congrArg List.length hcontra
  simp at this

/-- C2 as amended: every index stored in a chain's `children` is a valid
index into the function table (`results`) and names a filtered direct callee
of the chain's last element. -/
theorem C2_children_into_function_table (stats : List StatsEntry) :
    ∀ cc ∈ (analyzeFunctionLevel stats).2, ∀ i ∈ cc.children,
      ∃ last c r, cc.chain.getLast? = some last ∧
        c ∈ calleesOf (firstPass stats).directCalls last ∧
        shouldIncludeFunction c = true ∧
        (analyzeFunctionLevel stats).1[i]? = some r ∧ r.function = c := by
  intro cc hcc i hi
  obtain ⟨f, hf, hbcc⟩ := mem_analyze_chains hcc
  obtain ⟨g, hlast, _, _, hchild⟩ := buildCallChains_record_spec _ _ _ _ cc hbcc
  rw [hchild] at hi
  obtain ⟨c, hc, hcinc, hclookup⟩ := mem_childIndices hi
  obtain ⟨_, _, htab⟩ := firstPass_inv stats
  obtain ⟨r, hr, hrn, _, _⟩ := htab c i hclookup
  rw [analyzeFunctionLevel_results]
  exact ⟨g, c, r, hlast, hc, hcinc, hr, hrn⟩

/-- Witness for the amended C2 at `c2Stats`: index 0 stored by the chain
`["alpha"]` denotes the function-table record of its callee `beta`. -/
theorem C2_children_witness :
    ∃ last c r,
      ({ chain := ["alpha"], count := 1, self_time := 1, children := [0] } :
        CallChain).chain.getLast? = some last ∧
      c ∈ calleesOf (firstPass c2Stats).directCalls last ∧
      shouldIncludeFunction c = true ∧
      (analyzeFunctionLevel c2Stats).1[(0 : Nat)]? = some r ∧ r.function = c :=
  C2_children_into_function_table c2Stats
    { chain := ["alpha"], count := 1, self_time := 1, children := [0] }
    (by rw [c2Stats_chains]; simp) 0 (by simp)

/-- C4: excluded names never appear in the function table, as a caller key
of the call-edge map, or inside any chain. -/
theorem C4_filter_invariant (stats : List StatsEntry) :
    (∀ r ∈ (analyzeFunctionLevel stats).1, shouldIncludeFunction r.function = true) ∧
    (∀ kv ∈ (firstPass stats).directCalls, shouldIncludeFunction kv.1 = true) ∧
    (∀ cc ∈ (analyzeFunctionLevel stats).2, ∀ x ∈ cc.chain,
      shouldIncludeFunction x = true) := by
  obtain ⟨hres, hdc, _⟩ := firstPass_inv stats
  refine ⟨?_, hdc, ?_⟩
  · intro r hr
    rw [analyzeFunctionLevel_results] at hr
    exact (hres r hr).2
  · intro cc hcc x hx
    obtain ⟨f, hf, hbcc⟩ := mem_analyze_chains hcc
    exact buildCallChains_chain_filtered _ _ _ _ (by simp) hf cc hbcc x hx

/-- Witness for C4 at the cyclic input. -/
theorem C4_filter_witness :
    shouldIncludeFunction "A" = true ∧ shouldIncludeFunction "B" = true := by
  constructor
  · have := (C4_filter_invariant cycStats).1
      { function := "A", calls := 1, total_time := 2, average_time := 2,
        line_number := 1 }
      (by rw [cycStats_results]; simp)
    simpa using this
  · have := (C4_filter_invariant cycStats).2.2
      { chain := ["A", "B"], count := 1, self_time := -1, children := [0] }
      (by rw [cycStats_chains]; simp) "B" (by simp)
    simpa using this

/-- C5: chain construction terminates on cyclic caller graphs (the traversal
is well-founded on the unvisited part of the name pool — this is how
`buildCallChains` is accepted by Lean); no chain repeats a symbol, and on the
two-node cycle `A → B → A` every produced chain has length at most 2, the
cycle length. -/
theorem C5_cycle_safety :
    (∀ (stats : List StatsEntry), ∀ cc ∈ (analyzeFunctionLevel stats).2,
      cc.chain.Nodup) ∧
    (∀ cc ∈ (analyzeFunctionLevel cycStats).2, cc.chain.length ≤ 2) := by
  constructor
  · intro stats cc hcc
    obtain ⟨f, _, hbcc⟩ := mem_analyze_chains hcc
    exact buildCallChains_chain_nodup _ _ _ _ List.nodup_nil (by simp) cc hbcc
  · intro cc hcc
    rw [cycStats_chains] at hcc
    simp only [List.mem_cons, List.not_mem_nil, or_false] at hcc
    rcases hcc with rfl | rfl <;> simp

/-- Witness for C5 at the cyclic input's longest chain. -/
theorem C5_cycle_witness :
    (["A", "B"] : List String).Nodup ∧ (["A", "B"] : List String).length ≤ 2 := by
  constructor
  · have := C5_cycle_safety.1 cycStats
      { chain := ["A", "B"], count := 1, self_time := -1, children := [0] }
      (by rw [cycStats_chains]; simp)
    exact this
  · have := C5_cycle_safety.2
      { chain := ["A", "B"], count := 1, self_time := -1, children := [0] }
      (by rw [cycStats_chains]; simp)
    exact this

/-- C6: every function record's average time is its cumulative time divided
by its call count when the count is positive, and 0 otherwise. -/
theorem C6_average_time (stats : List StatsEntry) :
    ∀ r ∈ (analyzeFunctionLevel stats).1,
      r.average_time = if r.calls > 0 then r.total_time / (r.calls : Rat) else 0 := by
  intro r hr
  rw [analyzeFunctionLevel_results] at hr
  exact ((firstPass_inv stats).1 r hr).1

/-- Witness for C6 at the cyclic input's first record. -/
theorem C6_average_time_witness :
    ({ function := "A", calls := 1, total_time := 2, average_time := 2,
       line_number := 1 } : FunctionRecord).average_time =
      if ({ function := "A", calls := 1, total_time := 2, average_time := 2,
            line_number := 1 } : FunctionRecord).calls > 0 then
        ({ function := "A", calls := 1, total_time := 2, average_time := 2,
           line_number := 1 } : FunctionRecord).total_time /
          (({ function := "A", calls := 1, total_time := 2, average_time := 2,
              line_number := 1 } : FunctionRecord).calls : Rat)
      else 0 :=
  C6_average_time cycStats
    { function := "A", calls := 1, total_time := 2, average_time := 2,
      line_number := 1 }
    (by rw [cycStats_results]; simp)

/-- C3: when raw call stacks are available, each produced chain's `count` is
assigned from the exact-match frequency table keyed by the full ordered
stack tuple, matched at the chain's own stack (`tuple(chain)`): the count
equals the number of raw stacks exactly equal to the chain, and a stack with
no matching raw sample has table entry 0. -/
theorem C3_count_from_stack_table (samples : List (List String)) :
    (∀ c ∈ Profiler2.buildSampleChains samples,
      c.count = (lookupA (Profiler2.calcCallChainCounts samples) c.chain).getD 0 ∧
      c.count = samples.count c.chain) ∧
    (∀ k, samples.count k = 0 →
      (lookupA (Profiler2.calcCallChainCounts samples) k).getD 0 = 0) := by
  constructor
  · intro c hc
    have hmem := Profiler2.mem_buildSampleChains hc
    have hcount := Profiler2.mem_samplesCounter_count hmem
    refine ⟨?_, hcount⟩
    rw [Profiler2.calcCallChainCounts_lookup]
    exact hcount
  · intro k hk
    rw [Profiler2.calcCallChainCounts_lookup, hk]

/-- Witness for C3 at the concrete sample list. -/
theorem C3_count_witness :
    (({ chain := ["Thread-MainThread", "f(a.py:1)"], count := 2, percentage := 50 } :
        Profiler2.SampleChain).count =
      (lookupA (Profiler2.calcCallChainCounts Profiler2.exStacks)
        ({ chain := ["Thread-MainThread", "f(a.py:1)"], count := 2, percentage := 50 } :
          Profiler2.SampleChain).chain).getD 0) ∧
    (lookupA (Profiler2.calcCallChainCounts Profiler2.exStacks) ["absent"]).getD 0 = 0 := by
  constructor
  · exact ((C3_count_from_stack_table Profiler2.exStacks).1
      { chain := ["Thread-MainThread", "f(a.py:1)"], count := 2, percentage := 50 }
      (by rw [Profiler2.exStacks_chains]; simp)).1
  · exact (C3_count_from_stack_table Profiler2.exStacks).2 ["absent"] (by decide)

/-- C7, counterexample: a script whose load succeeds but whose instrumented
run raises makes `analyze_file` propagate the exception instead of returning
an error object — the bare `exec` in `_analyze_function_level` is not
wrapped in any handler. -/
theorem C7_counterexample :
    Iface.analyzeFile { loadOutcome := .ok (), runOutcome := .error "boom" }
        "function" = .error "boom" ∧
    (Iface.analyzeFile { loadOutcome := .ok (), runOutcome := .error "boom" }
        "function").isOk = false := ⟨rfl, rfl⟩

/-- C7 as amended: a failed load and an unsupported mode return explicit
error objects carrying no statistics, while an exception raised by the
target during the instrumented run propagates out of `analyze_file`; in
every aborted case no partial statistics are returned. -/
theorem C7_error_paths (s : Iface.Script) (mode : String) :
    (∀ e, s.loadOutcome = .error e →
      Iface.analyzeFile s mode = .ok (.errorObj "Failed to load file")) ∧
    (mode ≠ "function" → mode ≠ "line" → s.loadOutcome = .ok () →
      Iface.analyzeFile s mode = .ok (.errorObj "Unsupported analysis mode")) ∧
    (∀ e, s.loadOutcome = .ok () → s.runOutcome = .error e →
      (mode = "function" ∨ mode = "line") →
      Iface.analyzeFile s mode = .error e) := by
  refine ⟨?_, ?_, ?_⟩
  · intro e he
    unfold Iface.analyzeFile
    rw [he]
  · intro h1 h2 h3
    unfold Iface.analyzeFile
    rw [h3, if_neg h1, if_neg h2]
  · rintro e h1 h2 (rfl | rfl)
    · unfold Iface.analyzeFile
      rw [h1, if_pos rfl, h2]
    · unfold Iface.analyzeFile
      rw [h1, if_neg (by decide), if_pos rfl, h2]

/-- Witness for the amended C7 on the three abort paths. -/
theorem C7_error_paths_witness :
    Iface.analyzeFile { loadOutcome := .error "nf", runOutcome := .ok [] }
        "function" = .ok (.errorObj "Failed to load file") ∧
    Iface.analyzeFile { loadOutcome := .ok (), runOutcome := .ok [] }
        "memory" = .ok (.errorObj "Unsupported analysis mode") ∧
    Iface.analyzeFile { loadOutcome := .ok (), runOutcome := .error "boom" }
        "line" = .error "boom" := by
  refine ⟨?_, ?_, ?_⟩
  · exact (C7_error_paths _ _).1 "nf" rfl
  · exact (C7_error_paths _ _).2.1 (by decide) (by decide) rfl
  · exact (C7_error_paths _ _).2.2 "boom" rfl rfl (Or.inr rfl)

/-- C8, counterexample: registering a custom rule with the malformed
expression `"calls >"` through `CustomRuleBuilder.build_non_ast_rule` and
`add_rule` adds one rule — not zero — because the builder's `try` wraps only
a `def` and the expression is compiled only when the predicate is later
evaluated. -/
theorem C8_counterexample :
    ((RulesPySpy.RuleManager.init.addRule "my_rule" "d"
        (RulesPySpy.buildNonAstRule Rules.malformedCheck "d" "s").check "s"
        false).rules.length
      = RulesPySpy.RuleManager.init.rules.length + 1) ∧
    (lookupA (RulesPySpy.RuleManager.init.addRule "my_rule" "d"
        (RulesPySpy.buildNonAstRule Rules.malformedCheck "d" "s").check "s"
        false).rules "my_rule").isSome = true := by
  exact ⟨rfl, rfl⟩

/-- C8 as amended: for rules loaded from a serialized rule file
(`load_custom_rules`), a malformed predicate expression fails only that
rule's registration — it is skipped, a warning is recorded, nothing raises,
and every other well-formed rule is registered; but a rule built through
`CustomRuleBuilder.build_non_ast_rule` is not checked at build time — it is
registered anyway and each later evaluation of its predicate fails, to be
caught by the engine's per-application handler. -/
theorem C8_malformed_rule (rules : List (String × RulesSprint3.RawCustomRule))
    (hnd : (rules.map Prod.fst).Nodup) :
    (∀ name rr d ck sg, (name, rr) ∈ rules →
      rr.description = some d → rr.check = some ck → rr.suggestion = some sg →
      (∀ e, ck.compiled = .error e →
        lookupA (RulesSprint3.loadCustomRules rules).1 name = none ∧
        ("Warning: Invalid check function for custom rule " ++ name) ∈
          (RulesSprint3.loadCustomRules rules).2) ∧
      (∀ f, ck.compiled = .ok f →
        lookupA (RulesSprint3.loadCustomRules rules).1 name =
          some { description := d, check := f, suggestion := sg })) ∧
    (∀ (ck : Rules.CheckSrc) (d s : String) (r : Rules.Rec) (e : String),
      ck.compiled = .error e →
      (RulesPySpy.buildNonAstRule ck d s).check (.inr r) = .error e) := by
  constructor
  · intro name rr d ck sg hmem hd hck hsg
    have hspec := RulesSprint3.loadFold_spec rules ([], []) hmem hnd hd hck hsg
    constructor
    · intro e hce
      obtain ⟨hl, hw⟩ := hspec.1 e hce
      exact ⟨hl, hw⟩
    · intro f hcf
      exact hspec.2 f hcf
  · intro ck d s r e hce
    unfold RulesPySpy.buildNonAstRule
    simp only [hce]

/-- Witness for the amended C8: in the concrete rule file the malformed
`"calls >"` rule is dropped with a warning, the well-formed `"calls > 100"`
rule is registered, and the built rule's deferred failure surfaces at
evaluation. -/
theorem C8_malformed_rule_witness :
    (lookupA (RulesSprint3.loadCustomRules RulesSprint3.exCustomRules).1
        "bad_rule" = none ∧
      ("Warning: Invalid check function for custom rule " ++ "bad_rule") ∈
        (RulesSprint3.loadCustomRules RulesSprint3.exCustomRules).2) ∧
    lookupA (RulesSprint3.loadCustomRules RulesSprint3.exCustomRules).1
        "good_rule" =
      some { description := "gd",
             check := fun r => .ok (decide (r.calls.getD 0 > 100)),
             suggestion := "gs" } ∧
    (RulesPySpy.buildNonAstRule Rules.malformedCheck "d" "s").check
        (.inr {}) = .error "SyntaxError: invalid syntax" := by
  refine ⟨?_, ?_, ?_⟩
  · exact ((C8_malformed_rule RulesSprint3.exCustomRules (by decide)).1
      "bad_rule" _ "bd" Rules.malformedCheck "bs"
      (List.mem_cons_of_mem _ (List.mem_cons_self _ _)) rfl rfl rfl).1
      "SyntaxError: invalid syntax" rfl
  · exact ((C8_malformed_rule RulesSprint3.exCustomRules (by decide)).1
      "good_rule" _ "gd" Rules.goodCheck "gs"
      (List.mem_cons_self _ _) rfl rfl rfl).2
      (fun r => .ok (decide (r.calls.getD 0 > 100))) rfl
  · exact (C8_malformed_rule [] (by decide)).2 Rules.malformedCheck "d" "s" {}
      "SyntaxError: invalid syntax" rfl

/-- C9, counterexample: in the Sprint-3 engine (`src/recommender.py`) the
`try` block encloses the statistics loops, so a `SyntaxError` from
`ast.parse` abandons them: with a function record on which the
`function_call_optimization` check fires, the engine still returns the empty
suggestion list. -/
theorem C9_counterexample :
    RulesSprint3.functionCallOptCheck RulesSprint3.exFuncRec = true ∧
    RulesSprint3.generateOptimizationSuggestions (.error "SyntaxError")
      [Rules.AnalysisResult.functionMode [RulesSprint3.exFuncRec]] [] =
      .ok [] := by
  constructor
  · norm_num [RulesSprint3.functionCallOptCheck, RulesSprint3.exFuncRec]
  · simp [RulesSprint3.generateOptimizationSuggestions,
      RulesSprint3.sortBySeverity]

/-- C9 as amended: in the RuleManager engine
(`src/Py_Spy/recommender.py`) a parse failure skips structural rule
evaluation while the statistics loops still run, evaluating every
statistics-based rule against the analysis records and returning their
suggestions; in the Sprint-3 engine (`src/recommender.py`) a parse failure
abandons the statistics loops too and the result is the empty list. -/
theorem C9_parse_error_behaviour (e : String)
    (analysis : List Rules.AnalysisResult) (rm : RulesPySpy.RuleManager)
    (customRules : List (String × RulesSprint3.LoadedRule)) :
    RulesPySpy.generateOptimizationSuggestions (.error e) analysis rm
      = RulesPySpy.statsSuggestions rm analysis ∧
    (∀ rs r name rule,
      Rules.AnalysisResult.functionMode rs ∈ analysis → r ∈ rs →
      (name, rule) ∈ rm.getNonAstRules → rule.check (.inr r) = .ok true →
      RulesPySpy.mkSuggestion name rule r.line_number (some r.function) ∈
        RulesPySpy.generateOptimizationSuggestions (.error e) analysis rm) ∧
    RulesSprint3.generateOptimizationSuggestions (.error e) analysis
      customRules = .ok [] := by
  refine ⟨rfl, ?_, ?_⟩
  · intro rs r name rule hres hr hrule hcheck
    show RulesPySpy.mkSuggestion name rule r.line_number (some r.function) ∈
      ([] ++ RulesPySpy.statsSuggestions rm analysis)
    rw [List.nil_append]
    exact RulesPySpy.mem_statsSuggestions_function hres hr hrule hcheck
  · simp [RulesSprint3.generateOptimizationSuggestions,
      RulesSprint3.sortBySeverity]

/-- Witness for the amended C9: with the default rule manager and the
concrete function record, the `function_call_optimization` suggestion is in
the output despite the parse failure. -/
theorem C9_parse_error_witness :
    RulesPySpy.mkSuggestion "function_call_optimization"
        RulesPySpy.functionCallOptimizationRule (some 3) (some "process_data") ∈
      RulesPySpy.generateOptimizationSuggestions (.error "SyntaxError")
        [Rules.AnalysisResult.functionMode [RulesSprint3.exFuncRec]]
        RulesPySpy.RuleManager.init := by
  have h := (C9_parse_error_behaviour "SyntaxError"
    [Rules.AnalysisResult.functionMode [RulesSprint3.exFuncRec]]
    RulesPySpy.RuleManager.init []).2.1
    [RulesSprint3.exFuncRec] RulesSprint3.exFuncRec
    "function_call_optimization" RulesPySpy.functionCallOptimizationRule
    (List.mem_singleton.mpr rfl) (List.mem_singleton.mpr rfl)
    (List.mem_singleton.mpr rfl) rfl
  exact h

/-- C10: after any sequence of `add_rule`/`remove_rule` calls, the AST-based
and non-AST-based rule views partition the full rule set: their
concatenation is a permutation of `get_all_rules`, and each registered rule
belongs to exactly the view selected by its `is_ast_based` flag (read with
default `True` when absent). -/
theorem C10_rule_partition (ops : List RulesPySpy.RuleOp) :
    ((RulesPySpy.applyOps ops).getAstRules ++
        (RulesPySpy.applyOps ops).getNonAstRules).Perm
      (RulesPySpy.applyOps ops).getAllRules ∧
    ∀ name rule, (name, rule) ∈ (RulesPySpy.applyOps ops).getAllRules →
      (((name, rule) ∈ (RulesPySpy.applyOps ops).getAstRules) ↔
        rule.is_ast_based.getD true = true) ∧
      (((name, rule) ∈ (RulesPySpy.applyOps ops).getNonAstRules) ↔
        rule.is_ast_based.getD true = false) := by
  constructor
  · exact List.filter_append_perm _ _
  · intro name rule hmem
    constructor
    · unfold RulesPySpy.RuleManager.getAstRules
      rw [List.mem_filter]
      constructor
      · intro h
        exact h.2
      · intro h
        exact ⟨hmem, h⟩
    · unfold RulesPySpy.RuleManager.getNonAstRules
      rw [List.mem_filter]
      constructor
      · intro h
        have h2 := h.2
        simpa using h2
      · intro h
        exact ⟨hmem, by simp [h]⟩

/-- Witness for C10 at the freshly constructed manager and its
`loop_optimization` rule. -/
theorem C10_rule_partition_witness :
    ((("loop_optimization", RulesPySpy.loopOptimizationRule) ∈
        (RulesPySpy.applyOps []).getAstRules) ↔
      RulesPySpy.loopOptimizationRule.is_ast_based.getD true = true) ∧
    ((("loop_optimization", RulesPySpy.loopOptimizationRule) ∈
        (RulesPySpy.applyOps []).getNonAstRules) ↔
      RulesPySpy.loopOptimizationRule.is_ast_based.getD true = false) :=
  (C10_rule_partition []).2 "loop_optimization" RulesPySpy.loopOptimizationRule
    (List.mem_cons_self _ _)

end CityUSpy
